import Mathlib

/-!
Verification of the research-analyzer document-analysis core
(src/research-analyzer/src/routes/analysis.py).

The development shallowly embeds:
  * a model of Python `json.loads` (module `json`, default settings) as a
    fueled recursive-descent parser over `List Char`;
  * the response-to-structure resolver of `analyze_document_with_gemini`
    (lines 132-146): strip, direct parse, greedy brace-span fallback;
  * the prompt template (lines 68-126) as a pure string function;
  * `extract_text_from_file` (lines 23-51) with library outcomes
    (DocxDocument paragraphs, PdfReader page texts) as oracles;
  * the `/analyze` endpoint `analyze_document` (lines 151-187).
-/

/-- JSON values as produced by Python `json.loads`.  Numbers keep their
source lexeme (Python distinguishes int/float; no claim depends on numeric
value, only on parse success and structure).  Objects keep the member list
in source order; Python's dict keeps the last value for duplicate keys,
a divergence that no claim touches. -/
inductive JsonValue where
  | null : JsonValue
  | bool : Bool → JsonValue
  | num : String → JsonValue
  | str : String → JsonValue
  | arr : List JsonValue → JsonValue
  | obj : List (String × JsonValue) → JsonValue

/-- JSON whitespace, as in Python `json.decoder` (space, tab, newline, CR). -/
def isJsonWs (c : Char) : Bool :=
  c = ' ' || c = '\t' || c = '\n' || c = '\r'

/-- Skip JSON whitespace. -/
def skipWs (l : List Char) : List Char := l.dropWhile isJsonWs

/-- All characters are JSON whitespace. -/
def allWs (l : List Char) : Bool := l.all isJsonWs

/-- Value of a hex digit, for string escapes. -/
def hexVal (c : Char) : Option Nat :=
  if '0' ≤ c ∧ c ≤ '9' then some (c.toNat - '0'.toNat)
  else if 'a' ≤ c ∧ c ≤ 'f' then some (c.toNat - 'a'.toNat + 10)
  else if 'A' ≤ c ∧ c ≤ 'F' then some (c.toNat - 'A'.toNat + 10)
  else none

/-- Simple escape characters of JSON strings. -/
def escChar (c : Char) : Option Char :=
  if c = '"' then some '"'
  else if c = '\\' then some '\\'
  else if c = '/' then some '/'
  else if c = 'b' then some (Char.ofNat 8)
  else if c = 'f' then some (Char.ofNat 12)
  else if c = 'n' then some '\n'
  else if c = 'r' then some '\r'
  else if c = 't' then some '\t'
  else none

/-- Body of a JSON string after the opening quote: returns the decoded
characters and the rest after the closing quote.  Mirrors Python's strict
`scanstring`: unescaped control characters below 0x20 are rejected, and a
\u escape becomes the character of its code point (astral surrogate pairs
are not recombined; no claim involves them). -/
def parseStringBody : List Char → Option (List Char × List Char)
  | [] => none
  | c :: r =>
    if c = '"' then some ([], r)
    else if c = '\\' then
      match r with
      | [] => none
      | e :: r1 =>
        if e = 'u' then
          match r1 with
          | h1 :: h2 :: h3 :: h4 :: r2 =>
            match hexVal h1, hexVal h2, hexVal h3, hexVal h4 with
            | some a, some b, some x, some d =>
              (parseStringBody r2).map
                (fun p => (Char.ofNat (((a * 16 + b) * 16 + x) * 16 + d) :: p.1, p.2))
            | _, _, _, _ => none
          | _ => none
        else
          match escChar e with
          | some ec => (parseStringBody r1).map (fun p => (ec :: p.1, p.2))
          | none => none
    else if c.toNat < 32 then none
    else (parseStringBody r).map (fun p => (c :: p.1, p.2))

/-- Integer part of a JSON number: 0, or a nonzero digit followed by digits
(the regex group -?(?:0|[1-9]\d*) of json.decoder NUMBER_RE, sign handled
by the caller). -/
def parseIntPart : List Char → Option (List Char × List Char)
  | [] => none
  | c :: r =>
    if c = '0' then some (['0'], r)
    else if c.isDigit then some (c :: r.takeWhile Char.isDigit, r.dropWhile Char.isDigit)
    else none

/-- Optional fraction part (regex group (\.\d+)?): taken only when a dot is
directly followed by a digit. -/
def parseFrac : List Char → (List Char × List Char)
  | [] => ([], [])
  | c :: r =>
    if c = '.' then
      match r with
      | [] => ([], c :: r)
      | d :: r1 =>
        if d.isDigit then ('.' :: d :: r1.takeWhile Char.isDigit, r1.dropWhile Char.isDigit)
        else ([], c :: r)
    else ([], c :: r)

/-- Optional exponent part (regex group ([eE][-+]?\d+)?): taken only when
e/E with optional sign is followed by a digit. -/
def parseExp : List Char → (List Char × List Char)
  | [] => ([], [])
  | c :: r =>
    if c = 'e' ∨ c = 'E' then
      match r with
      | [] => ([], c :: r)
      | d :: r1 =>
        if d.isDigit then (c :: d :: r1.takeWhile Char.isDigit, r1.dropWhile Char.isDigit)
        else if d = '+' ∨ d = '-' then
          match r1 with
          | [] => ([], c :: r)
          | x :: r2 =>
            if x.isDigit then (c :: d :: x :: r2.takeWhile Char.isDigit, r2.dropWhile Char.isDigit)
            else ([], c :: r)
        else ([], c :: r)
    else ([], c :: r)

/-- A JSON number lexeme: the maximal match of json.decoder NUMBER_RE at the
start of the input, with its remainder. -/
def parseNumber (s : List Char) : Option (List Char × List Char) :=
  match s with
  | [] => none
  | c :: r =>
    let p := if c = '-' then (([c] : List Char), r) else ([], c :: r)
    match parseIntPart p.2 with
    | none => none
    | some (ip, s2) =>
      let f := parseFrac s2
      let e := parseExp f.2
      some (p.1 ++ ip ++ f.1 ++ e.1, e.2)

/-- Atoms: the literals null, true, false, the Python json constants
NaN, Infinity, negative Infinity, and numbers.  Dispatch follows the head character,
as Python's scanner effectively does. -/
def parseAtom : List Char → Option (JsonValue × List Char)
  | [] => none
  | c :: r =>
    if c = 'n' then
      match r with
      | 'u' :: 'l' :: 'l' :: r1 => some (JsonValue.null, r1)
      | _ => none
    else if c = 't' then
      match r with
      | 'r' :: 'u' :: 'e' :: r1 => some (JsonValue.bool true, r1)
      | _ => none
    else if c = 'f' then
      match r with
      | 'a' :: 'l' :: 's' :: 'e' :: r1 => some (JsonValue.bool false, r1)
      | _ => none
    else if c = 'N' then
      match r with
      | 'a' :: 'N' :: r1 => some (JsonValue.num "NaN", r1)
      | _ => none
    else if c = 'I' then
      match r with
      | 'n' :: 'f' :: 'i' :: 'n' :: 'i' :: 't' :: 'y' :: r1 => some (JsonValue.num "Infinity", r1)
      | _ => none
    else if c = '-' then
      match r with
      | 'I' :: 'n' :: 'f' :: 'i' :: 'n' :: 'i' :: 't' :: 'y' :: r1 =>
        some (JsonValue.num "-Infinity", r1)
      | _ =>
        match parseNumber (c :: r) with
        | some (ds, r1) => some (JsonValue.num (String.mk ds), r1)
        | none => none
    else if c.isDigit then
      match parseNumber (c :: r) with
      | some (ds, r1) => some (JsonValue.num (String.mk ds), r1)
      | none => none
    else none

mutual

/-- A JSON value: leading whitespace, then an object, array, string or atom.
Fuel bounds recursion depth, modelling Python's finite recursion limit;
`jsonFuel` below is far beyond any input the claims touch. -/
def parseValue : Nat → List Char → Option (JsonValue × List Char)
  | 0, _ => none
  | fuel + 1, s =>
    match skipWs s with
    | [] => none
    | c :: r =>
      if c = '\x7b' then (parseMembersFirst fuel r).map (fun p => (JsonValue.obj p.1, p.2))
      else if c = '[' then (parseElemsFirst fuel r).map (fun p => (JsonValue.arr p.1, p.2))
      else if c = '"' then (parseStringBody r).map (fun p => (JsonValue.str (String.mk p.1), p.2))
      else parseAtom (c :: r)

/-- Object members, directly after the opening brace: empty object or a
first member. -/
def parseMembersFirst : Nat → List Char → Option (List (String × JsonValue) × List Char)
  | 0, _ => none
  | fuel + 1, s =>
    match skipWs s with
    | [] => none
    | c :: r =>
      if c = '\x7d' then some ([], r)
      else if c = '"' then parseMember fuel r
      else none

/-- One member, directly after the opening quote of its key, followed by the
rest of the object. -/
def parseMember : Nat → List Char → Option (List (String × JsonValue) × List Char)
  | 0, _ => none
  | fuel + 1, r =>
    match parseStringBody r with
    | none => none
    | some (key, r1) =>
      match skipWs r1 with
      | [] => none
      | c :: r2 =>
        if c = ':' then
          match parseValue fuel r2 with
          | none => none
          | some (v, r3) =>
            match parseMembersRest fuel r3 with
            | none => none
            | some (fs, r4) => some ((String.mk key, v) :: fs, r4)
        else none

/-- After a member: closing brace, or a comma and the next member (whose key
must begin directly after optional whitespace). -/
def parseMembersRest : Nat → List Char → Option (List (String × JsonValue) × List Char)
  | 0, _ => none
  | fuel + 1, s =>
    match skipWs s with
    | [] => none
    | c :: r =>
      if c = '\x7d' then some ([], r)
      else if c = ',' then
        match skipWs r with
        | [] => none
        | c2 :: r2 =>
          if c2 = '"' then parseMember fuel r2
          else none
      else none

/-- Array elements, directly after the opening bracket. -/
def parseElemsFirst : Nat → List Char → Option (List JsonValue × List Char)
  | 0, _ => none
  | fuel + 1, s =>
    match skipWs s with
    | [] => none
    | c :: r =>
      if c = ']' then some ([], r)
      else
        match parseValue fuel s with
        | none => none
        | some (v, r1) =>
          match parseElemsRest fuel r1 with
          | none => none
          | some (es, r2) => some (v :: es, r2)

/-- After an element: closing bracket, or a comma and the next element. -/
def parseElemsRest : Nat → List Char → Option (List JsonValue × List Char)
  | 0, _ => none
  | fuel + 1, s =>
    match skipWs s with
    | [] => none
    | c :: r =>
      if c = ']' then some ([], r)
      else if c = ',' then
        match parseValue fuel r with
        | none => none
        | some (v, r1) =>
          match parseElemsRest fuel r1 with
          | none => none
          | some (es, r2) => some (v :: es, r2)
      else none

end

/-- Recursion budget of the `json.loads` model; far beyond any realistic
response, mirroring that Python raises RecursionError on pathologically
nested documents. -/
def jsonFuel : Nat := 200000

/-- Model of Python `json.loads` on a character list: parse one value, then
require the remainder to be whitespace (else Python raises "Extra data"). -/
def jsonLoadsL (l : List Char) : Option JsonValue :=
  match parseValue jsonFuel l with
  | some (v, rem) => if allWs rem then some v else none
  | none => none

/-- Model of Python `json.loads` on a string. -/
def jsonLoads (s : String) : Option JsonValue := jsonLoadsL s.data

example : jsonLoads "[]" = some (JsonValue.arr []) := rfl
example : jsonLoads "5" = some (JsonValue.num "5") := rfl
example : jsonLoads " \x7b\"a\": 1, \"b\": [true, null]\x7d " =
    some (JsonValue.obj [("a", JsonValue.num "1"), ("b", JsonValue.arr [JsonValue.bool true, JsonValue.null])]) := rfl
example : jsonLoads "\x7b\"a\": 1\x7d x" = none := rfl
example : jsonLoads "nullx" = none := rfl
example : jsonLoads "-1.5e+10" = some (JsonValue.num "-1.5e+10") := rfl
example : jsonLoads "01" = none := rfl
example : jsonLoads "\"a\\n\"" = some (JsonValue.str "a\n") := rfl
example : jsonLoads "Here is" = none := rfl

/-- Python str.strip() whitespace on the ASCII range (space, tab, LF, CR,
vertical tab, form feed); the responses in question contain no exotic
Unicode whitespace. -/
def isPyWs (c : Char) : Bool :=
  c = ' ' || c = '\t' || c = '\n' || c = '\r' || c = '\x0b' || c = '\x0c'

/-- Python str.strip() on a character list. -/
def pyStripL (l : List Char) : List Char :=
  ((l.dropWhile isPyWs).reverse.dropWhile isPyWs).reverse

/-- Python str.strip(). -/
def pyStrip (s : String) : String := String.mk (pyStripL s.data)

/-- Drop characters up to (and keeping) the first opening brace. -/
def dropUntilBrace : List Char → Option (List Char)
  | [] => none
  | c :: r => if c = '\x7b' then some (c :: r) else dropUntilBrace r

/-- The prefix of the list that ends at its last closing brace, if any. -/
def takeToLastClose : List Char → Option (List Char)
  | [] => none
  | c :: r =>
    match takeToLastClose r with
    | some x => some (c :: x)
    | none => if c = '\x7d' then some [c] else none

/-- The span matched by re.search of a greedy DOTALL brace pattern
(line 140): from the first opening brace to the last closing brace strictly
after it; none when no such span exists. -/
def extractBraceSpan (l : List Char) : Option (List Char) :=
  match dropUntilBrace l with
  | none => none
  | some [] => none
  | some (c :: r) =>
    match takeToLastClose r with
    | none => none
    | some x => some (c :: x)

/-- Response resolution of analyze_document_with_gemini (lines 132-146):
strip the raw text, try json.loads directly, otherwise json.loads on the
greedy brace span; a span parse failure propagates the JSONDecodeError,
no span raises the ValueError message of line 146. -/
def resolveResponse (responseText : String) : Except String JsonValue :=
  match jsonLoadsL (pyStripL responseText.data) with
  | some v => Except.ok v
  | none =>
    match extractBraceSpan (pyStripL responseText.data) with
    | some span =>
      match jsonLoadsL span with
      | some v => Except.ok v
      | none => Except.error "JSONDecodeError"
    | none => Except.error "Could not extract valid JSON from Gemini response"

example : resolveResponse "  \x7b\"k\": []\x7d  " = Except.ok (JsonValue.obj [("k", JsonValue.arr [])]) := rfl
example : resolveResponse "noise \x7b\"k\": 1\x7d noise" = Except.ok (JsonValue.obj [("k", JsonValue.num "1")]) := rfl
example : resolveResponse "no braces here" = Except.error "Could not extract valid JSON from Gemini response" := rfl

/-- Membership of a top-level key in a parsed JSON object. -/
def objHasKey (v : JsonValue) (k : String) : Bool :=
  match v with
  | JsonValue.obj fs => fs.any (fun p => p.1 == k)
  | _ => false

/-- The three top-level keys the spec requires of an AnalysisResult. -/
def hasRequiredKeys (v : JsonValue) : Bool :=
  objHasKey v "terms" && objHasKey v "expressions" && objHasKey v "overall_costs"

/-- The ten predefined operation entries of the prompt's Priority 2 cost
table (lines 83-92), exactly as written in the source. -/
def costTableLines : List String :=
  ["Hash Function (TH): 0.0023ms",
   "Elliptic Curve Scalar Multiplication (TM): 2.226ms",
   "Elliptic Curve Addition (TA): 0.0288ms",
   "Symmetric Encryption (TS): 0.0046ms",
   "Modular Exponentiation (TE): 3.85ms",
   "Modular Multiplication (TMM): 0.0147ms",
   "Biometric Key Processing (TBio): 63.075ms",
   "Extracting a Random Number (TExR): 2.011ms",
   "Vector Addition Modulo (Tam): 2ms",
   "Matrix Multiplication Modulo (Tmm): 4ms"]

/-- Renders the cost-table entries as the indented bullet lines of the
prompt. -/
def concatTableLines : List String → String
  | [] => ""
  | x :: xs => "               - " ++ x ++ "\n" ++ concatTableLines xs

/-- The cost-table block of the prompt (lines 83-92). -/
def costTableBlock : String := concatTableLines costTableLines

/-- Prompt text before the Priority 1 header (lines 68-81). -/
def promptSeg0 : String :=
  "\n        Analyze the following research document and extract the following information in JSON format:\n\n        1. Document-specific terms and their definitions. Prioritize the following terms: \"Ui\", \"IDi\", \"Identity of Ui\", \"SCi\", \"User’s Smart card\", \"PWi\", \"Password of Ui\", \"Sj\", \"The jth Sensor Node\", \"SIDj\", \"Identity of the Sensor Sj\", \"GWN\", \"Gateway Node\", \"SK\", \"Session Key\", \"Open channel\", \"Secure channel\", \"h(.)\", \"One way hash Function\", \"∥\", \"Message concatenation\", \"⊕\", \"XOR operation.\". Also, identify any other terms explicitly defined within the document. Exclude common abbreviations that are not defined in the document.\n\n        2. Complex expressions (logical, hashing, cryptographic, etc.). For each expression, extract its name, type, communicational cost (in bits), and computational cost (in milliseconds).\n           - **Crucially, populate the `expressions` array with ALL identified expressions and their associated costs.**\n           - **Exclude Assignment Operations:** Do not include simple assignment operations (e.g., `X = xP`, `K1 = xQ`, `K2 = kX`, `Y = yP`, `Q = kP`) in this list. Focus on logical, hashing, cryptographic, or other complex operations.\n           - **Expression Type:** Accurately categorize the `type` as \x27logical\x27 (e.g., XOR operations, boolean logic), \x27hashing\x27 (e.g., hash functions), \x27cryptographic\x27 (e.g., encryption, scalar multiplication, addition), or \x27other\x27 based on the expression\x27s nature.\n           - **Communicational Cost:**\n             - If the document explicitly states a communicational cost (e.g., \"requires X bits\"), use that value.\n             - If no explicit cost is mentioned in the document, use a default of \"8 bits\".\n           - **Computational Cost:**\n             - **"

/-- The tier 1 header of the cost resolution policy. -/
def priorityHeader1 : String := "Priority 1: Document Explicit Costs"

/-- Prompt text between the Priority 1 and Priority 2 headers. -/
def promptSeg1 : String :=
  ":** If the document explicitly states a computational cost for an operation (e.g., \"Hash Function costs 0.0023 ms\"), use that value.\n             - **"

/-- The tier 2 header of the cost resolution policy. -/
def priorityHeader2 : String := "Priority 2: Predefined Costs"

/-- Prompt text between the Priority 2 header and the cost table. -/
def promptSeg2 : String :=
  ":** If no explicit cost is found in the document, check if the expression matches one of the following predefined operations and use its associated cost:\n"

/-- Prompt text between the cost table and the Priority 3 header. -/
def promptSeg3 : String :=
  "             - **"

/-- The tier 3 header of the cost resolution policy. -/
def priorityHeader3 : String := "Priority 3: Default Cost"

/-- Prompt text between the Priority 3 header and the interpolated document text (lines 93-101). -/
def promptSeg4 : String :=
  ":** If neither an explicit document cost nor a matching predefined operation is found, use a default computational cost of \"1ms\".\n           - Look for explicit mentions of costs using keywords like \"cost\", \"takes\", \"requires\", \"ms\", \"bits\".\n           - Extract the exact cost value and unit as found in the text.\n        3. Analyze the overall project proposal to determine its total communicational cost and total computational cost. This should be a high-level assessment of the proposal\x27s resource requirements, synthesizing information from the document.\n           - If the document provides a summary of total costs (e.g., \"The total communication cost is X bits\", \"The overall computation will take Y ms\"), use those values.\n           - If no explicit summary is found, provide a conservative estimate based on the most significant components identified in section 2, clearly stating that it\x27s an estimate.\n\n        Document text:\n        "

/-- Prompt text after the interpolated document text (lines 101-126). -/
def promptSuffix : String :=
  "\n\n        Please respond with a valid JSON object in the following format:\n        \x7b\n            \"terms\": [\n                \x7b\n                    \"term\": \"term name\",\n                    \"description\": \"term description\"\n                \x7d\n            ],\n            \"expressions\": [\n                \x7b\n                    \"expression\": \"expression name\",\n                    \"type\": \"logical/hashing/cryptographic/other\",\n                    \"communicational_cost\": \"cost in bits\", \n                    \"computational_cost\": \"cost in ms\" \n                \x7d\n            ],\n            \"overall_costs\": \x7b\n                \"total_communicational_cost\": \"total bits\", \n                \"total_computational_cost\": \"total ms\" \n            \x7d\n        \x7d\n\n        Ensure the response is valid JSON only, no additional text.\n        "

/-- The prompt built inside analyze_document_with_gemini (lines 68-126):
the f-string template with document_text interpolated; a pure function of
the document text. -/
def geminiPrompt (documentText : String) : String :=
  promptSeg0 ++ priorityHeader1 ++ promptSeg1 ++ priorityHeader2 ++ promptSeg2 ++
    costTableBlock ++ promptSeg3 ++ priorityHeader3 ++ promptSeg4 ++ documentText ++
    promptSuffix

/-- An uploaded file: its declared filename together with the outcomes the
extraction libraries would produce on its bytes.  `docxParagraphs` is the
paragraph texts DocxDocument would yield (or the parse exception),
`pdfPages` the per-page extract_text results PdfReader would yield (or the
read exception). -/
structure UploadedFile where
  filename : String
  docxParagraphs : Except String (List String)
  pdfPages : Except String (List String)

/-- Python filename.lower().endswith(pat) for a lower-case pattern
(character-wise lowering, which agrees with str.lower on ASCII). -/
def lowerEndsWith (s pat : String) : Bool :=
  pat.data.isSuffixOf (s.data.map Char.toLower)

/-- extract_text_from_file (lines 23-51): dispatch on the lower-cased
filename extension; .docx joins paragraph texts with newlines, .pdf joins
the non-empty page texts with newlines (pages yielding falsy text are
skipped), .doc always fails, anything else is unsupported. -/
def extract_text_from_file (f : UploadedFile) : Except String String :=
  if lowerEndsWith f.filename ".docx" then
    match f.docxParagraphs with
    | Except.ok paras => Except.ok (String.intercalate "\n" paras)
    | Except.error e => Except.error ("Error extracting text from .docx file: " ++ e)
  else if lowerEndsWith f.filename ".pdf" then
    match f.pdfPages with
    | Except.ok pages => Except.ok (String.intercalate "\n" (pages.filter (fun p => !(p == ""))))
    | Except.error e => Except.error ("Error extracting text from .pdf file: " ++ e)
  else if lowerEndsWith f.filename ".doc" then
    Except.error "Text extraction from .doc files is not directly supported. Please convert to .docx or .pdf."
  else
    Except.error "Unsupported file type for text extraction."

/-- analyze_document_with_gemini (lines 54-149).  The provider argument
models configure_gemini plus model.generate_content plus response.text on
the given prompt: it returns the raw response text or the provider-side
exception.  Any exception is re-raised with the wrapper message of
line 149. -/
def analyze_document_with_gemini (documentText : String)
    (provider : String → Except String String) : Except String JsonValue :=
  match provider (geminiPrompt documentText) with
  | Except.error e => Except.error ("Error analyzing document with Gemini: " ++ e)
  | Except.ok raw =>
    match resolveResponse raw with
    | Except.ok v => Except.ok v
    | Except.error e => Except.error ("Error analyzing document with Gemini: " ++ e)

/-- A POST /analyze request: the optional multipart file field and the
optional api_key form field. -/
structure AnalyzeRequest where
  document : Option UploadedFile
  apiKey : Option String

/-- A JSON response body of the /analyze route: either a serialized result
or an error object. -/
inductive ApiBody where
  | result : JsonValue → ApiBody
  | error : String → ApiBody

/-- The /analyze route handler analyze_document (lines 151-187), returning
the HTTP status code and body.  Exceptions raised by extraction or
analysis are caught at line 186 and become status 500. -/
def analyze_document (req : AnalyzeRequest)
    (provider : String → Except String String) : Nat × ApiBody :=
  match req.document with
  | none => (400, ApiBody.error "No document file provided")
  | some file =>
    match req.apiKey with
    | none => (400, ApiBody.error "No API key provided")
    | some _ =>
      if file.filename = "" then (400, ApiBody.error "No file selected")
      else if !(lowerEndsWith file.filename ".doc" || lowerEndsWith file.filename ".docx" ||
                lowerEndsWith file.filename ".pdf") then
        (400, ApiBody.error "Unsupported file type. Only .doc, .docx, .pdf files are allowed.")
      else
        match extract_text_from_file file with
        | Except.error e => (500, ApiBody.error e)
        | Except.ok document_text =>
          if pyStrip document_text = "" then
            (400, ApiBody.error "Document is empty or could not be read")
          else
            match analyze_document_with_gemini document_text provider with
            | Except.error e => (500, ApiBody.error e)
            | Except.ok v => (200, ApiBody.result v)

example :
    extract_text_from_file ⟨"a.docx", Except.ok ["A", "B"], Except.ok []⟩ = Except.ok "A\nB" := rfl
example :
    extract_text_from_file ⟨"a.pdf", Except.ok [], Except.ok ["p1", "", "p3"]⟩ = Except.ok "p1\np3" := rfl
example :
    extract_text_from_file ⟨"a.DOC", Except.ok [], Except.ok []⟩ =
      Except.error "Text extraction from .doc files is not directly supported. Please convert to .docx or .pdf." := rfl

/-! Helper lemmas about filename extensions. -/

/-- A nonempty suffix determines the last element. -/
theorem getLast_of_suffix {α : Type} {l₁ l₂ : List α} (hs : l₁ <:+ l₂) (hne : l₁ ≠ []) :
    l₂.getLast? = l₁.getLast? := by
  obtain ⟨t, rfl⟩ := hs
  exact List.getLast?_append_of_ne_nil t hne

/-- Two extension patterns with different last characters cannot both match. -/
theorem lowerEndsWith_exclusive {s pat1 pat2 : String}
    (h1 : lowerEndsWith s pat1 = true) (h2 : lowerEndsWith s pat2 = true)
    (hn1 : pat1.data ≠ []) (hn2 : pat2.data ≠ [])
    (hne : pat1.data.getLast? ≠ pat2.data.getLast?) : False := by
  simp only [lowerEndsWith, List.isSuffixOf_iff_suffix] at h1 h2
  exact hne ((getLast_of_suffix h1 hn1).symm.trans (getLast_of_suffix h2 hn2))

/-- A filename ending in ".pdf" does not end in ".docx". -/
theorem pdf_not_docx {s : String} (h : lowerEndsWith s ".pdf" = true) :
    lowerEndsWith s ".docx" = false := by
  cases hx : lowerEndsWith s ".docx" with
  | false => rfl
  | true => exact absurd (lowerEndsWith_exclusive h hx (by decide) (by decide) (by decide)) id

/-- A filename ending in ".doc" does not end in ".pdf". -/
theorem doc_not_pdf {s : String} (h : lowerEndsWith s ".doc" = true) :
    lowerEndsWith s ".pdf" = false := by
  cases hx : lowerEndsWith s ".pdf" with
  | false => rfl
  | true => exact absurd (lowerEndsWith_exclusive h hx (by decide) (by decide) (by decide)) id

/-- C6: for every .docx file that parses successfully, extract_text_from_file
returns the paragraph texts in order joined with single newlines. -/
theorem c6_docx_join (f : UploadedFile) (paras : List String)
    (hext : lowerEndsWith f.filename ".docx" = true)
    (hok : f.docxParagraphs = Except.ok paras) :
    extract_text_from_file f = Except.ok (String.intercalate "\n" paras) := by
  simp [extract_text_from_file, hext, hok]

/-- Witness for C6: paragraphs A, B give exactly the two-line string. -/
theorem c6_docx_join_witness :
    extract_text_from_file ⟨"paper.docx", Except.ok ["A", "B"], Except.ok []⟩ =
      Except.ok "A\nB" :=
  c6_docx_join ⟨"paper.docx", Except.ok ["A", "B"], Except.ok []⟩ ["A", "B"] (by decide) rfl

/-- C7: for every readable PDF file, extract_text_from_file returns the
page texts in page order with the empty ones omitted, joined by newlines. -/
theorem c7_pdf_join (f : UploadedFile) (pages : List String)
    (hext : lowerEndsWith f.filename ".pdf" = true)
    (hok : f.pdfPages = Except.ok pages) :
    extract_text_from_file f =
      Except.ok (String.intercalate "\n" (pages.filter (fun p => !(p == "")))) := by
  simp only [extract_text_from_file, pdf_not_docx hext, hext, hok, Bool.false_eq_true,
    if_false, if_true]

/-- Witness for C7: a middle page with no text is skipped. -/
theorem c7_pdf_join_witness :
    extract_text_from_file ⟨"paper.pdf", Except.ok [], Except.ok ["p1", "", "p3"]⟩ =
      Except.ok "p1\np3" :=
  c7_pdf_join ⟨"paper.pdf", Except.ok [], Except.ok ["p1", "", "p3"]⟩ ["p1", "", "p3"]
    (by decide) rfl

/-- C8: a file whose name ends in ".doc" (and not ".docx") always fails
extraction with the fixed unsupported-format error, whatever its bytes. -/
theorem c8_doc_always_fails (f : UploadedFile)
    (hdoc : lowerEndsWith f.filename ".doc" = true)
    (hnotx : lowerEndsWith f.filename ".docx" = false) :
    extract_text_from_file f =
      Except.error "Text extraction from .doc files is not directly supported. Please convert to .docx or .pdf." := by
  simp [extract_text_from_file, hnotx, doc_not_pdf hdoc, hdoc]

/-- Witness for C8: a .doc file with perfectly readable content still fails. -/
theorem c8_doc_always_fails_witness :
    extract_text_from_file ⟨"legacy.doc", Except.ok ["text"], Except.ok ["text"]⟩ =
      Except.error "Text extraction from .doc files is not directly supported. Please convert to .docx or .pdf." :=
  c8_doc_always_fails ⟨"legacy.doc", Except.ok ["text"], Except.ok ["text"]⟩
    (by decide) (by decide)

/-- C9: the prompt is a pure function of the document text, and the analysis
result is determined by the document text and the provider's response to
that one prompt: two providers that agree on the built prompt give
identical results. -/
theorem c9_pipeline_deterministic (d : String) (p1 p2 : String → Except String String)
    (h : p1 (geminiPrompt d) = p2 (geminiPrompt d)) :
    analyze_document_with_gemini d p1 = analyze_document_with_gemini d p2 := by
  unfold analyze_document_with_gemini
  rw [h]

/-- First run's provider for the C9 witness. -/
def c9prov1 : String → Except String String := fun _ => Except.ok "[]"

/-- Second run's provider for the C9 witness: differs from c9prov1 as a
function term but answers the built prompt identically. -/
def c9prov2 : String → Except String String :=
  fun s => if s = "" then Except.error "e" else Except.ok "[]"

/-- Witness for C9: the two runs return identical results. -/
theorem c9_pipeline_deterministic_witness :
    analyze_document_with_gemini "doc text" c9prov1 =
      analyze_document_with_gemini "doc text" c9prov2 :=
  c9_pipeline_deterministic "doc text" c9prov1 c9prov2 rfl

/-- C1 counterexample: a response whose recovered JSON object lacks all of
the keys terms, expressions, overall_costs is returned as a result, not
rejected. -/
theorem c1_counterexample :
    resolveResponse "\x7b\"foo\": 1\x7d" =
      Except.ok (JsonValue.obj [("foo", JsonValue.num "1")]) ∧
    hasRequiredKeys (JsonValue.obj [("foo", JsonValue.num "1")]) = false :=
  ⟨rfl, rfl⟩

/-- C1 amended: the resolver performs no top-level key validation.  It
returns a value exactly when the direct parse of the stripped text or the
parse of the brace-span fallback recovers a JSON value, and that value is
returned as-is; it fails with an error exactly when neither path recovers
any JSON value. -/
theorem c1_no_key_validation (resp : String) :
    (∀ v, resolveResponse resp = Except.ok v ↔
      (jsonLoadsL (pyStripL resp.data) = some v ∨
        (jsonLoadsL (pyStripL resp.data) = none ∧
          ∃ span, extractBraceSpan (pyStripL resp.data) = some span ∧
            jsonLoadsL span = some v))) ∧
    ((∃ e, resolveResponse resp = Except.error e) ↔
      ∀ v, ¬(jsonLoadsL (pyStripL resp.data) = some v ∨
        (jsonLoadsL (pyStripL resp.data) = none ∧
          ∃ span, extractBraceSpan (pyStripL resp.data) = some span ∧
            jsonLoadsL span = some v))) := by
  cases hd : jsonLoadsL (pyStripL resp.data) with
  | some v0 =>
    have hres : resolveResponse resp = Except.ok v0 := by
      unfold resolveResponse
      rw [hd]
    refine ⟨fun v => ⟨?_, ?_⟩, ⟨?_, ?_⟩⟩
    · intro hv
      rw [hres] at hv
      injection hv with h1
      exact Or.inl (by rw [h1])
    · rintro (hsome | ⟨hnone, -⟩)
      · injection hsome with h1
        rw [hres, h1]
      · exact Option.noConfusion hnone
    · rintro ⟨e, heq⟩
      rw [hres] at heq
      exact Except.noConfusion heq
    · intro hall
      exact absurd (Or.inl rfl) (hall v0)
  | none =>
    cases he : extractBraceSpan (pyStripL resp.data) with
    | none =>
      have hres : resolveResponse resp =
          Except.error "Could not extract valid JSON from Gemini response" := by
        unfold resolveResponse
        rw [hd, he]
      refine ⟨fun v => ⟨?_, ?_⟩, ⟨?_, ?_⟩⟩
      · intro hv
        rw [hres] at hv
        exact Except.noConfusion hv
      · rintro (hsome | ⟨-, span, hspan, -⟩)
        · exact Option.noConfusion hsome
        · exact Option.noConfusion hspan
      · rintro -
        rintro v (hsome | ⟨-, span, hspan, -⟩)
        · exact Option.noConfusion hsome
        · exact Option.noConfusion hspan
      · rintro -
        exact ⟨_, hres⟩
    | some span0 =>
      cases hs : jsonLoadsL span0 with
      | some v0 =>
        have hres : resolveResponse resp = Except.ok v0 := by
          unfold resolveResponse
          rw [hd, he]
          simp [hs]
        refine ⟨fun v => ⟨?_, ?_⟩, ⟨?_, ?_⟩⟩
        · intro hv
          rw [hres] at hv
          injection hv with h1
          exact Or.inr ⟨rfl, span0, rfl, h1 ▸ hs⟩
        · rintro (hsome | ⟨-, span, hspan, hv⟩)
          · exact Option.noConfusion hsome
          · injection hspan with h2
            rw [← h2, hs] at hv
            injection hv with h3
            rw [hres, h3]
        · rintro ⟨e, heq⟩
          rw [hres] at heq
          exact Except.noConfusion heq
        · intro hall
          exact absurd (Or.inr ⟨rfl, span0, rfl, hs⟩) (hall v0)
      | none =>
        have hres : resolveResponse resp = Except.error "JSONDecodeError" := by
          unfold resolveResponse
          rw [hd, he]
          simp [hs]
        refine ⟨fun v => ⟨?_, ?_⟩, ⟨?_, ?_⟩⟩
        · intro hv
          rw [hres] at hv
          exact Except.noConfusion hv
        · rintro (hsome | ⟨-, span, hspan, hv⟩)
          · exact Option.noConfusion hsome
          · injection hspan with h2
            rw [← h2, hs] at hv
            exact Option.noConfusion hv
        · rintro -
          rintro v (hsome | ⟨-, span, hspan, hv⟩)
          · exact Option.noConfusion hsome
          · injection hspan with h2
            rw [← h2, hs] at hv
            exact Option.noConfusion hv
        · rintro -
          exact ⟨_, hres⟩

/-- Witness for the amended C1: a keys-lacking object recovered through the
brace-span fallback (the direct parse fails on the prose) is returned. -/
theorem c1_no_key_validation_witness :
    resolveResponse "note \x7b\"bar\": 2\x7d end" =
      Except.ok (JsonValue.obj [("bar", JsonValue.num "2")]) :=
  ((c1_no_key_validation "note \x7b\"bar\": 2\x7d end").1
      (JsonValue.obj [("bar", JsonValue.num "2")])).mpr
    (Or.inr ⟨rfl, "\x7b\"bar\": 2\x7d".data, rfl, rfl⟩)

/-- C10: a .docx file that parses to zero paragraphs extracts to the empty
string without error, and the /analyze route then answers 400 with the
empty-document message rather than a 500 extraction failure. -/
theorem c10_empty_docx_gives_400 (f : UploadedFile) (k : String)
    (provider : String → Except String String)
    (hext : lowerEndsWith f.filename ".docx" = true)
    (hok : f.docxParagraphs = Except.ok []) :
    extract_text_from_file f = Except.ok "" ∧
    analyze_document ⟨some f, some k⟩ provider =
      (400, ApiBody.error "Document is empty or could not be read") := by
  have he : extract_text_from_file f = Except.ok "" := by
    simp [extract_text_from_file, hext, hok]
    rfl
  refine ⟨he, ?_⟩
  have hne : f.filename ≠ "" := by
    intro h0
    rw [h0] at hext
    exact absurd hext (by decide)
  simp [analyze_document, hne, hext, he, show pyStrip "" = "" from rfl]

/-- Witness for C10. -/
theorem c10_empty_docx_gives_400_witness :
    extract_text_from_file ⟨"empty.docx", Except.ok [], Except.ok []⟩ = Except.ok "" ∧
    analyze_document ⟨some ⟨"empty.docx", Except.ok [], Except.ok []⟩, some "key"⟩
        (fun _ => Except.ok "") =
      (400, ApiBody.error "Document is empty or could not be read") :=
  c10_empty_docx_gives_400 ⟨"empty.docx", Except.ok [], Except.ok []⟩ "key"
    (fun _ => Except.ok "") (by decide) rfl

/-- Every entry renders to an infix of the cost-table block. -/
theorem mem_infix_concatTableLines (x : String) (xs : List String) (hm : x ∈ xs) :
    x.data <:+: (concatTableLines xs).data := by
  induction xs with
  | nil => cases hm
  | cons y ys ih =>
    rcases List.mem_cons.mp hm with rfl | hmem
    · exact ⟨"               - ".data, ("\n" ++ concatTableLines ys).data, by
        simp [concatTableLines]⟩
    · exact (ih hmem).trans ⟨("               - " ++ y ++ "\n").data, [], by
        simp [concatTableLines]⟩

/-- C2: for every document text, the prompt built by
analyze_document_with_gemini contains the three tier headers of the cost
resolution policy and each of the ten predefined operation entries with
exactly the fixed table\x27s values. -/
theorem c2_prompt_embeds_cost_policy (doc : String) :
    (∀ line ∈ costTableLines, line.data <:+: (geminiPrompt doc).data) ∧
    priorityHeader1.data <:+: (geminiPrompt doc).data ∧
    priorityHeader2.data <:+: (geminiPrompt doc).data ∧
    priorityHeader3.data <:+: (geminiPrompt doc).data := by
  refine ⟨fun line hm => ?_, ?_, ?_, ?_⟩
  · exact (mem_infix_concatTableLines line costTableLines hm).trans
      ⟨(promptSeg0 ++ priorityHeader1 ++ promptSeg1 ++ priorityHeader2 ++ promptSeg2).data,
        (promptSeg3 ++ priorityHeader3 ++ promptSeg4 ++ doc ++ promptSuffix).data,
        by simp [geminiPrompt, costTableBlock]⟩
  · exact ⟨promptSeg0.data,
      (promptSeg1 ++ priorityHeader2 ++ promptSeg2 ++ costTableBlock ++ promptSeg3 ++
        priorityHeader3 ++ promptSeg4 ++ doc ++ promptSuffix).data,
      by simp [geminiPrompt]⟩
  · exact ⟨(promptSeg0 ++ priorityHeader1 ++ promptSeg1).data,
      (promptSeg2 ++ costTableBlock ++ promptSeg3 ++ priorityHeader3 ++ promptSeg4 ++ doc ++
        promptSuffix).data,
      by simp [geminiPrompt]⟩
  · exact ⟨(promptSeg0 ++ priorityHeader1 ++ promptSeg1 ++ priorityHeader2 ++ promptSeg2 ++
        costTableBlock ++ promptSeg3).data,
      (promptSeg4 ++ doc ++ promptSuffix).data,
      by simp [geminiPrompt]⟩

/-- Witness for C2 at a concrete document and table entry. -/
theorem c2_prompt_embeds_cost_policy_witness :
    "Hash Function (TH): 0.0023ms".data <:+: (geminiPrompt "sample document").data ∧
    priorityHeader2.data <:+: (geminiPrompt "sample document").data :=
  ⟨(c2_prompt_embeds_cost_policy "sample document").1 "Hash Function (TH): 0.0023ms" (by decide),
   (c2_prompt_embeds_cost_policy "sample document").2.2.1⟩

/-! Lemmas about the greedy brace-span extraction. -/

/-- No opening brace, no span start. -/
theorem dropUntilBrace_eq_none {l : List Char} (h : '\x7b' ∉ l) :
    dropUntilBrace l = none := by
  induction l with
  | nil => rfl
  | cons c r ih =>
    have hc : ¬(c = '\x7b') := fun hc => h (hc ▸ List.mem_cons_self c r)
    simp [dropUntilBrace, hc, ih (fun hm => h (List.mem_cons_of_mem c hm))]

/-- The span start skips any brace-free prefix. -/
theorem dropUntilBrace_append {pre l : List Char} (h : '\x7b' ∉ pre) :
    dropUntilBrace (pre ++ l) = dropUntilBrace l := by
  induction pre with
  | nil => rfl
  | cons c r ih =>
    have hc : ¬(c = '\x7b') := fun hc => h (hc ▸ List.mem_cons_self c r)
    simp [dropUntilBrace, hc, ih (fun hm => h (List.mem_cons_of_mem c hm))]

/-- The span starts at an opening brace. -/
theorem dropUntilBrace_cons_brace (l : List Char) :
    dropUntilBrace ('\x7b' :: l) = some ('\x7b' :: l) := by
  simp [dropUntilBrace]

/-- No closing brace, no span end. -/
theorem takeToLastClose_eq_none {l : List Char} (h : '\x7d' ∉ l) :
    takeToLastClose l = none := by
  induction l with
  | nil => rfl
  | cons c r ih =>
    have hc : ¬(c = '\x7d') := fun hc => h (hc ▸ List.mem_cons_self c r)
    simp [takeToLastClose, hc, ih (fun hm => h (List.mem_cons_of_mem c hm))]

/-- A brace-free tail does not move the last closing brace. -/
theorem takeToLastClose_append {l suf : List Char} (h : '\x7d' ∉ suf) :
    takeToLastClose (l ++ suf) = takeToLastClose l := by
  induction l with
  | nil => simp [takeToLastClose_eq_none h, takeToLastClose]
  | cons c r ih =>
    have step : takeToLastClose ((c :: r) ++ suf) =
        (match takeToLastClose (r ++ suf) with
          | some x => some (c :: x)
          | none => if c = '\x7d' then some [c] else none) := rfl
    rw [step, ih]
    rfl

/-- A list ending in a closing brace is its own span end. -/
theorem takeToLastClose_of_getLast {l : List Char} (h : l.getLast? = some '\x7d') :
    takeToLastClose l = some l := by
  induction l with
  | nil => simp at h
  | cons c r ih =>
    cases r with
    | nil =>
      have hc : c = '\x7d' := by simpa using h
      simp [takeToLastClose, hc]
    | cons d r' =>
      have h' : (d :: r').getLast? = some '\x7d' := by
        rwa [List.getLast?_cons_cons] at h
      have step : takeToLastClose (c :: d :: r') =
          (match takeToLastClose (d :: r') with
            | some x => some (c :: x)
            | none => if c = '\x7d' then some [c] else none) := rfl
      rw [step, ih h']

/-- Characters of the stripped text come from the original text. -/
theorem mem_of_mem_pyStripL {x : Char} {l : List Char} (hx : x ∈ pyStripL l) : x ∈ l := by
  unfold pyStripL at hx
  rw [List.mem_reverse] at hx
  have hx2 : x ∈ (l.dropWhile isPyWs).reverse := (List.dropWhile_sublist _).subset hx
  rw [List.mem_reverse] at hx2
  exact (List.dropWhile_sublist _).subset hx2

/-- C5 counterexample: the brace-free response text of an empty JSON array
is parsed directly by json.loads and returned, so resolution does not
always fail on brace-free text. -/
theorem c5_counterexample :
    resolveResponse "[]" = Except.ok (JsonValue.arr []) ∧
    '\x7b' ∉ "[]".data ∧ '\x7d' ∉ "[]".data :=
  ⟨rfl, by decide, by decide⟩

/-- C5 amended: resolution fails on every response that contains no braces
and whose stripped text is not itself valid JSON (brace-free text that is
valid JSON, such as a bare array, number or string, is parsed by the direct
json.loads attempt and returned). -/
theorem c5_no_braces_fails (resp : String)
    (hb1 : '\x7b' ∉ resp.data) (_hb2 : '\x7d' ∉ resp.data)
    (hdirect : jsonLoadsL (pyStripL resp.data) = none) :
    resolveResponse resp = Except.error "Could not extract valid JSON from Gemini response" := by
  unfold resolveResponse
  rw [hdirect]
  have hb : '\x7b' ∉ pyStripL resp.data := fun hm => hb1 (mem_of_mem_pyStripL hm)
  simp [extractBraceSpan, dropUntilBrace_eq_none hb]

/-- Witness for the amended C5. -/
theorem c5_no_braces_fails_witness :
    resolveResponse "there is no json here" =
      Except.error "Could not extract valid JSON from Gemini response" :=
  c5_no_braces_fails "there is no json here" (by decide) (by decide) rfl

/-- C3: when the stripped response is not itself valid JSON but consists of
a valid JSON object wrapped in brace-free prose, the fallback span is
exactly that object and resolution returns its parse. -/
theorem c3_recovers_embedded_object (resp pre obj suf : String) (v : JsonValue)
    (hsplit : pyStripL resp.data = pre.data ++ obj.data ++ suf.data)
    (hdirect : jsonLoadsL (pyStripL resp.data) = none)
    (hp1 : '\x7b' ∉ pre.data) (_hp2 : '\x7d' ∉ pre.data)
    (_hs1 : '\x7b' ∉ suf.data) (hs2 : '\x7d' ∉ suf.data)
    (hhead : obj.data.head? = some '\x7b')
    (hlast : obj.data.getLast? = some '\x7d')
    (hparse : jsonLoadsL obj.data = some v) :
    resolveResponse resp = Except.ok v := by
  obtain ⟨m, hm⟩ : ∃ m, obj.data = '\x7b' :: m := by
    cases ho : obj.data with
    | nil => rw [ho] at hhead; simp at hhead
    | cons c r =>
      rw [ho] at hhead
      simp only [List.head?_cons, Option.some.injEq] at hhead
      exact ⟨r, by rw [hhead]⟩
  have hmne : m ≠ [] := by
    rintro rfl
    rw [hm] at hlast
    exact absurd hlast (by decide)
  have hml : m.getLast? = some '\x7d' := by
    cases m with
    | nil => exact absurd rfl hmne
    | cons d r' =>
      rw [hm, List.getLast?_cons_cons] at hlast
      exact hlast
  have e1 : extractBraceSpan (pyStripL resp.data) = some obj.data := by
    rw [hsplit, List.append_assoc]
    unfold extractBraceSpan
    rw [dropUntilBrace_append hp1, hm, List.cons_append, dropUntilBrace_cons_brace]
    simp only [takeToLastClose_append hs2, takeToLastClose_of_getLast hml]
  unfold resolveResponse
  rw [hdirect, e1]
  show (match jsonLoadsL obj.data with
    | some v => Except.ok v
    | none => Except.error "JSONDecodeError") = Except.ok v
  rw [hparse]

/-- The section 8.6 example response: prose, a complete AnalysisResult
object, more prose. -/
def ex86resp : String :=
  "Here is the result:\n\x7b\"terms\":[],\"expressions\":[],\"overall_costs\":\x7b\"total_communicational_cost\":\"0 bits\",\"total_computational_cost\":\"0ms\"\x7d\x7d\nThanks!"

/-- The embedded object of the section 8.6 example. -/
def ex86obj : String :=
  "\x7b\"terms\":[],\"expressions\":[],\"overall_costs\":\x7b\"total_communicational_cost\":\"0 bits\",\"total_computational_cost\":\"0ms\"\x7d\x7d"

/-- The parse of the section 8.6 example object. -/
def ex86val : JsonValue :=
  JsonValue.obj
    [("terms", JsonValue.arr []),
     ("expressions", JsonValue.arr []),
     ("overall_costs", JsonValue.obj
        [("total_communicational_cost", JsonValue.str "0 bits"),
         ("total_computational_cost", JsonValue.str "0ms")])]

/-- Witness for C3: the section 8.6 example resolves to the embedded
object. -/
theorem c3_recovers_embedded_object_witness :
    resolveResponse ex86resp = Except.ok ex86val :=
  c3_recovers_embedded_object ex86resp "Here is the result:\n" ex86obj "\nThanks!" ex86val
    (by decide) rfl (by decide) (by decide) (by decide) (by decide) rfl rfl rfl

/-! Extension lemmas: a successful parse of a prefix is unchanged when more
text is appended, under side conditions matching the maximal-munch points
of the grammar.  These power the C4 analysis of the greedy fallback. -/

/-- Characters that could extend a maximal number munch. -/
def contChar (c : Char) : Bool :=
  c = '.' || c = 'e' || c = 'E' || c = '+' || c = '-'

/-- The head of the remainder cannot extend a number munch. -/
def HeadSafe (l : List Char) : Prop :=
  ∀ c, l.head? = some c → contChar c = false

/-- NumStart l: the next value would be scanned as a number (or negative
constant). -/
def NumStart (l : List Char) : Bool :=
  match l with
  | [] => false
  | c :: _ => c.isDigit || c = '-'

/-- dropWhile after an append, when the left part already stops it. -/
theorem dropWhile_append_ne {p : Char → Bool} {l t : List Char} {c : Char} {r : List Char}
    (h : l.dropWhile p = c :: r) : (l ++ t).dropWhile p = c :: (r ++ t) := by
  rw [List.dropWhile_append, h]
  simp

/-- takeWhile after an append, when the left part already stops it. -/
theorem takeWhile_append_ne {p : Char → Bool} {l t : List Char} {c : Char} {r : List Char}
    (h : l.dropWhile p = c :: r) : (l ++ t).takeWhile p = l.takeWhile p := by
  rw [List.takeWhile_append]
  have hlen : (l.takeWhile p).length + (l.dropWhile p).length = l.length := by
    have h2 := congrArg List.length (List.takeWhile_append_dropWhile (p := p) (l := l))
    rwa [List.length_append] at h2
  rw [if_neg]
  intro hcon
  rw [hcon, h] at hlen
  simp at hlen

/-- Whitespace skipping after an append, when the left part has a non-blank
character. -/
theorem skipWs_append_ne {l t : List Char} {c : Char} {r : List Char}
    (h : skipWs l = c :: r) : skipWs (l ++ t) = c :: (r ++ t) :=
  dropWhile_append_ne h

/-- The stripped head of a list is its own head or blank. -/
theorem headSafe_of_skipWs {l : List Char} {c : Char} {r : List Char}
    (hw : skipWs l = c :: r) (hc : contChar c = false) : l ≠ [] ∧ HeadSafe l := by
  cases l with
  | nil => simp [skipWs] at hw
  | cons a l' =>
    refine ⟨by simp, ?_⟩
    intro x hx
    simp only [List.head?_cons, Option.some.injEq] at hx
    subst hx
    by_cases ha : isJsonWs a = true
    · simp only [isJsonWs, Bool.or_eq_true, decide_eq_true_eq] at ha
      rcases ha with ((rfl | rfl) | rfl) | rfl <;> rfl
    · rw [skipWs, List.dropWhile_cons, if_neg ha] at hw
      injection hw with h1 _
      rw [h1]
      exact hc

/-- A parsed string is delimited by its closing quote: appending text only
extends the remainder. -/
theorem parseStringBody_append {s t cs rem : List Char}
    (h : parseStringBody s = some (cs, rem)) :
    parseStringBody (s ++ t) = some (cs, rem ++ t) := by
  induction s using parseStringBody.induct generalizing cs rem
  all_goals rw [parseStringBody.eq_def] at h
  all_goals rw [parseStringBody.eq_def]
  all_goals simp_all [Option.map_eq_some']
  all_goals (rename_i ih; obtain ⟨a, ha, hcs⟩ := h; subst hcs; exact ⟨a, ih ha, rfl⟩)

/-- A successful integer part starts with a digit. -/
theorem parseIntPart_shape {s ip r : List Char} (h : parseIntPart s = some (ip, r)) :
    ∃ d r0, s = d :: r0 ∧ d.isDigit = true := by
  cases s with
  | nil => simp [parseIntPart] at h
  | cons c r0 =>
    by_cases hc : c = '0'
    · exact ⟨c, r0, rfl, by rw [hc]; decide⟩
    · by_cases hd : c.isDigit = true
      · exact ⟨c, r0, rfl, hd⟩
      · simp [parseIntPart, hc, hd] at h

/-- Integer-part extension: the munch stops at a character of the input. -/
theorem parseIntPart_append {s t ip r : List Char} (h : parseIntPart s = some (ip, r))
    (hr : r ≠ []) : parseIntPart (s ++ t) = some (ip, r ++ t) := by
  cases s with
  | nil => simp [parseIntPart] at h
  | cons c r0 =>
    rw [List.cons_append]
    by_cases hc : c = '0'
    · simp only [parseIntPart, if_pos hc, Option.some.injEq, Prod.mk.injEq] at h ⊢
      obtain ⟨rfl, rfl⟩ := h
      exact ⟨rfl, rfl⟩
    · by_cases hd : c.isDigit = true
      · simp only [parseIntPart, hc, hd, if_false, if_true, ite_false, ite_true,
          Option.some.injEq, Prod.mk.injEq] at h
        obtain ⟨rfl, rfl⟩ := h
        cases hdw : r0.dropWhile Char.isDigit with
        | nil => rw [hdw] at hr; exact absurd rfl hr
        | cons x y =>
          simp [parseIntPart, hc, hd, takeWhile_append_ne hdw, dropWhile_append_ne hdw, hdw]
      · simp [parseIntPart, hc, hd] at h

/-- The fraction part splits its input. -/
theorem parseFrac_decomp {s fp r : List Char} (h : parseFrac s = (fp, r)) : s = fp ++ r := by
  rw [parseFrac.eq_def] at h
  repeat' split at h
  all_goals simp only [Prod.mk.injEq] at h
  all_goals obtain ⟨rfl, rfl⟩ := h
  all_goals simp_all [List.takeWhile_append_dropWhile]

/-- The exponent part splits its input. -/
theorem parseExp_decomp {s ep r : List Char} (h : parseExp s = (ep, r)) : s = ep ++ r := by
  rw [parseExp.eq_def] at h
  repeat' split at h
  all_goals simp only [Prod.mk.injEq] at h
  all_goals obtain ⟨rfl, rfl⟩ := h
  all_goals simp_all [List.takeWhile_append_dropWhile]

/-- A consumed exponent part starts with e or E. -/
theorem parseExp_consumed_head {s r : List Char} {y : Char} {ys : List Char}
    (h : parseExp s = (y :: ys, r)) : y = 'e' ∨ y = 'E' := by
  rw [parseExp.eq_def] at h
  repeat' split at h
  all_goals simp only [Prod.mk.injEq] at h
  all_goals obtain ⟨h1, -⟩ := h
  all_goals cases h1
  all_goals assumption

/-- Fraction-part extension: safe when the remainder is nonempty and does
not begin with a dot. -/
theorem parseFrac_append {s t fp r : List Char} (h : parseFrac s = (fp, r))
    (hr : r ≠ []) (hdot : r.head? ≠ some '.') :
    parseFrac (s ++ t) = (fp, r ++ t) := by
  rw [parseFrac.eq_def] at h
  split at h
  · simp only [Prod.mk.injEq] at h
    obtain ⟨rfl, rfl⟩ := h
    exact absurd rfl hr
  · rename_i c r0
    split at h
    · rename_i hc
      subst hc
      split at h
      · simp only [Prod.mk.injEq] at h
        obtain ⟨rfl, rfl⟩ := h
        exact absurd rfl hdot
      · rename_i d r1
        split at h
        · rename_i hd
          simp only [Prod.mk.injEq] at h
          obtain ⟨rfl, rfl⟩ := h
          cases hdw : r1.dropWhile Char.isDigit with
          | nil => rw [hdw] at hr; exact absurd rfl hr
          | cons x y =>
            rw [List.cons_append, List.cons_append, parseFrac.eq_def]
            simp [hd, takeWhile_append_ne hdw, dropWhile_append_ne hdw, hdw]
        · simp only [Prod.mk.injEq] at h
          obtain ⟨rfl, rfl⟩ := h
          exact absurd rfl hdot
    · rename_i hc
      simp only [Prod.mk.injEq] at h
      obtain ⟨rfl, rfl⟩ := h
      rw [List.cons_append, parseFrac.eq_def]
      simp [hc]

/-- Exponent-part extension: safe when the remainder is nonempty and does
not begin with e or E. -/
theorem parseExp_append {s t ep r : List Char} (h : parseExp s = (ep, r))
    (hr : r ≠ []) (hee : ∀ y, r.head? = some y → ¬(y = 'e' ∨ y = 'E')) :
    parseExp (s ++ t) = (ep, r ++ t) := by
  rw [parseExp.eq_def] at h
  split at h
  · simp only [Prod.mk.injEq] at h
    obtain ⟨rfl, rfl⟩ := h
    exact absurd rfl hr
  · rename_i c r0
    split at h
    · rename_i hc
      split at h
      · simp only [Prod.mk.injEq] at h
        obtain ⟨rfl, rfl⟩ := h
        exact absurd hc (hee c rfl)
      · rename_i d r1
        split at h
        · rename_i hd
          simp only [Prod.mk.injEq] at h
          obtain ⟨rfl, rfl⟩ := h
          cases hdw : r1.dropWhile Char.isDigit with
          | nil => rw [hdw] at hr; exact absurd rfl hr
          | cons x y =>
            rw [List.cons_append, List.cons_append, parseExp.eq_def]
            simp [hc, hd, takeWhile_append_ne hdw, dropWhile_append_ne hdw, hdw]
        · rename_i hd
          split at h
          · rename_i hsign
            split at h
            · simp only [Prod.mk.injEq] at h
              obtain ⟨rfl, rfl⟩ := h
              exact absurd hc (hee c rfl)
            · rename_i x r2
              split at h
              · rename_i hx
                simp only [Prod.mk.injEq] at h
                obtain ⟨rfl, rfl⟩ := h
                cases hdw : r2.dropWhile Char.isDigit with
                | nil => rw [hdw] at hr; exact absurd rfl hr
                | cons u v =>
                  rw [List.cons_append, List.cons_append, List.cons_append, parseExp.eq_def]
                  simp [hc, hd, hsign, hx, takeWhile_append_ne hdw, dropWhile_append_ne hdw, hdw]
              · simp only [Prod.mk.injEq] at h
                obtain ⟨rfl, rfl⟩ := h
                exact absurd hc (hee c rfl)
          · simp only [Prod.mk.injEq] at h
            obtain ⟨rfl, rfl⟩ := h
            exact absurd hc (hee c rfl)
    · rename_i hc
      simp only [Prod.mk.injEq] at h
      obtain ⟨rfl, rfl⟩ := h
      rw [List.cons_append, parseExp.eq_def]
      simp [hc]

/-- Unfolding of parseNumber on a nonempty input, with the sign case
separated. -/
theorem parseNumber_cons (c : Char) (r0 : List Char) :
    parseNumber (c :: r0) =
      (if c = '-' then
        match parseIntPart r0 with
        | none => none
        | some (ip, s2) =>
          some (['-'] ++ ip ++ (parseFrac s2).1 ++ (parseExp (parseFrac s2).2).1,
            (parseExp (parseFrac s2).2).2)
      else
        match parseIntPart (c :: r0) with
        | none => none
        | some (ip, s2) =>
          some ([] ++ ip ++ (parseFrac s2).1 ++ (parseExp (parseFrac s2).2).1,
            (parseExp (parseFrac s2).2).2)) := by
  rw [parseNumber.eq_def]
  by_cases hm : c = '-' <;> simp [hm]

/-- Number extension: a maximal number munch is unchanged by appended text
when its remainder is nonempty and starts with a character that cannot
extend the munch. -/
theorem parseNumber_append {s t lex rem : List Char} (h : parseNumber s = some (lex, rem))
    (hr : rem ≠ []) (hsafe : HeadSafe rem) :
    parseNumber (s ++ t) = some (lex, rem ++ t) := by
  have hsdot : ∀ y, rem.head? = some y → ¬(y = '.') := by
    intro y hy hdot
    have := hsafe y hy
    rw [hdot] at this
    exact absurd this (by decide)
  have hsee : ∀ y, rem.head? = some y → ¬(y = 'e' ∨ y = 'E') := by
    intro y hy hor
    have := hsafe y hy
    rcases hor with rfl | rfl <;> exact absurd this (by decide)
  cases s with
  | nil =>
    rw [parseNumber.eq_def] at h
    simp at h
  | cons c r0 =>
    rw [List.cons_append, parseNumber_cons] at *
    by_cases hm : c = '-' <;> simp only [hm, if_true, if_false, ite_true, ite_false] at h ⊢
    · -- signed number
      cases hip : parseIntPart r0 with
      | none => rw [hip] at h; simp at h
      | some pr =>
        obtain ⟨ip, s2⟩ := pr
        rw [hip] at h
        rcases hpf : parseFrac s2 with ⟨fp, s3⟩
        rcases hpe : parseExp s3 with ⟨ep, s4⟩
        simp only [hpf, hpe, Option.some.injEq, Prod.mk.injEq] at h
        obtain ⟨hlex, hrem⟩ := h
        have hs3 : s3 = ep ++ s4 := parseExp_decomp hpe
        have hs2 : s2 = fp ++ s3 := parseFrac_decomp hpf
        have hr4 : s4 ≠ [] := by rw [hrem]; exact hr
        have hs3ne : s3 ≠ [] := by
          rw [hs3]
          intro h0
          exact hr4 (List.append_eq_nil.mp h0).2
        have hs2ne : s2 ≠ [] := by
          rw [hs2]
          intro h0
          exact hs3ne (List.append_eq_nil.mp h0).2
        have hdot3 : s3.head? ≠ some '.' := by
          cases ep with
          | nil =>
            rw [hs3, List.nil_append]
            intro h0
            exact hsdot '.' (hrem ▸ h0) rfl
          | cons y ys =>
            rw [hs3, List.cons_append, List.head?_cons]
            intro h0
            have hy := parseExp_consumed_head hpe
            rcases hy with rfl | rfl <;> simp at h0
        have hee4 : ∀ y, s4.head? = some y → ¬(y = 'e' ∨ y = 'E') := by
          intro y hy
          exact hsee y (hrem ▸ hy)
        simp only [parseIntPart_append hip hs2ne, parseFrac_append hpf hs3ne hdot3,
          parseExp_append hpe hr4 hee4, Option.some.injEq, Prod.mk.injEq]
        exact ⟨hlex, by rw [hrem]⟩
    · -- unsigned number
      cases hip : parseIntPart (c :: r0) with
      | none => rw [hip] at h; simp at h
      | some pr =>
        obtain ⟨ip, s2⟩ := pr
        rw [hip] at h
        rcases hpf : parseFrac s2 with ⟨fp, s3⟩
        rcases hpe : parseExp s3 with ⟨ep, s4⟩
        simp only [hpf, hpe, Option.some.injEq, Prod.mk.injEq] at h
        obtain ⟨hlex, hrem⟩ := h
        have hs3 : s3 = ep ++ s4 := parseExp_decomp hpe
        have hs2 : s2 = fp ++ s3 := parseFrac_decomp hpf
        have hr4 : s4 ≠ [] := by rw [hrem]; exact hr
        have hs3ne : s3 ≠ [] := by
          rw [hs3]
          intro h0
          exact hr4 (List.append_eq_nil.mp h0).2
        have hs2ne : s2 ≠ [] := by
          rw [hs2]
          intro h0
          exact hs3ne (List.append_eq_nil.mp h0).2
        have hdot3 : s3.head? ≠ some '.' := by
          cases ep with
          | nil =>
            rw [hs3, List.nil_append]
            intro h0
            exact hsdot '.' (hrem ▸ h0) rfl
          | cons y ys =>
            rw [hs3, List.cons_append, List.head?_cons]
            intro h0
            have hy := parseExp_consumed_head hpe
            rcases hy with rfl | rfl <;> simp at h0
        have hee4 : ∀ y, s4.head? = some y → ¬(y = 'e' ∨ y = 'E') := by
          intro y hy
          exact hsee y (hrem ▸ hy)
        have hipx : parseIntPart ((c :: r0) ++ t) = some (ip, s2 ++ t) :=
          parseIntPart_append hip hs2ne
        rw [List.cons_append] at hipx
        simp only [hipx, parseFrac_append hpf hs3ne hdot3, parseExp_append hpe hr4 hee4,
          Option.some.injEq, Prod.mk.injEq]
        exact ⟨hlex, by rw [hrem]⟩

/-- Atom extension: literals are fixed-width, numbers extend under the
HeadSafe side condition, and non-number dispatches never re-scan. -/
theorem parseAtom_append {l t : List Char} {v : JsonValue} {rem : List Char}
    (h : parseAtom l = some (v, rem))
    (hok : (rem ≠ [] ∧ HeadSafe rem) ∨ NumStart l = false) :
    parseAtom (l ++ t) = some (v, rem ++ t) := by
  cases l with
  | nil => rw [parseAtom.eq_def] at h; simp at h
  | cons c r =>
    rw [List.cons_append]
    rw [parseAtom.eq_def] at h
    rw [parseAtom.eq_def]
    by_cases hn : c = 'n'
    · simp only [if_pos hn] at h ⊢
      split at h
      · simp only [Option.some.injEq, Prod.mk.injEq] at h
        obtain ⟨rfl, rfl⟩ := h
        simp
      · simp at h
    · simp only [if_neg hn] at h ⊢
      by_cases ht : c = 't'
      · simp only [if_pos ht] at h ⊢
        split at h
        · simp only [Option.some.injEq, Prod.mk.injEq] at h
          obtain ⟨rfl, rfl⟩ := h
          simp
        · simp at h
      · simp only [if_neg ht] at h ⊢
        by_cases hf : c = 'f'
        · simp only [if_pos hf] at h ⊢
          split at h
          · simp only [Option.some.injEq, Prod.mk.injEq] at h
            obtain ⟨rfl, rfl⟩ := h
            simp
          · simp at h
        · simp only [if_neg hf] at h ⊢
          by_cases hN : c = 'N'
          · simp only [if_pos hN] at h ⊢
            split at h
            · simp only [Option.some.injEq, Prod.mk.injEq] at h
              obtain ⟨rfl, rfl⟩ := h
              simp
            · simp at h
          · simp only [if_neg hN] at h ⊢
            by_cases hI : c = 'I'
            · simp only [if_pos hI] at h ⊢
              split at h
              · simp only [Option.some.injEq, Prod.mk.injEq] at h
                obtain ⟨rfl, rfl⟩ := h
                simp
              · simp at h
            · simp only [if_neg hI] at h ⊢
              by_cases hm : c = '-'
              · simp only [if_pos hm] at h ⊢
                split at h
                · simp only [Option.some.injEq, Prod.mk.injEq] at h
                  obtain ⟨rfl, rfl⟩ := h
                  simp
                · -- number after a minus sign
                  cases hpn : parseNumber (c :: r) with
                  | none => rw [hpn] at h; simp at h
                  | some pr =>
                    obtain ⟨ds, r1⟩ := pr
                    rw [hpn] at h
                    simp only [Option.some.injEq, Prod.mk.injEq] at h
                    obtain ⟨rfl, rfl⟩ := h
                    have hok' : r1 ≠ [] ∧ HeadSafe r1 := by
                      rcases hok with hok' | hok'
                      · exact hok'
                      · rw [NumStart] at hok'
                        simp [hm] at hok'
                    have hext := parseNumber_append hpn hok'.1 hok'.2 (t := t)
                    rw [List.cons_append] at hext
                    obtain ⟨d, r0, hshape, hdig⟩ := by
                      have hx := parseNumber_cons c r
                      rw [hpn, if_pos hm] at hx
                      cases hip : parseIntPart r with
                      | none => rw [hip] at hx; simp at hx
                      | some pr2 =>
                        exact parseIntPart_shape hip
                    split
                    · rename_i heq
                      rw [hshape] at heq
                      simp only [List.cons_append, List.cons.injEq] at heq
                      rw [heq.1] at hdig
                      exact absurd hdig (by decide)
                    · rw [hshape] at hext ⊢
                      rw [hext]
              · simp only [if_neg hm] at h ⊢
                by_cases hd : c.isDigit = true
                · simp only [hd, if_true, ite_true] at h ⊢
                  cases hpn : parseNumber (c :: r) with
                  | none => rw [hpn] at h; simp at h
                  | some pr =>
                    obtain ⟨ds, r1⟩ := pr
                    rw [hpn] at h
                    simp only [Option.some.injEq, Prod.mk.injEq] at h
                    obtain ⟨rfl, rfl⟩ := h
                    have hok' : r1 ≠ [] ∧ HeadSafe r1 := by
                      rcases hok with hok' | hok'
                      · exact hok'
                      · rw [NumStart] at hok'
                        simp [hd] at hok'
                    have hext := parseNumber_append hpn hok'.1 hok'.2 (t := t)
                    rw [List.cons_append] at hext
                    rw [hext]
                · simp only [hd, if_false, ite_false] at h
                  simp at h

/-- After a member, the parser must see a closing brace or a comma. -/
theorem parseMembersRest_shape {fuel : Nat} {s : List Char}
    {fs : List (String × JsonValue)} {rem : List Char}
    (h : parseMembersRest fuel s = some (fs, rem)) :
    ∃ c r, skipWs s = c :: r ∧ (c = '\x7d' ∨ c = ',') := by
  cases fuel with
  | zero => simp [parseMembersRest] at h
  | succ f =>
    cases hw : skipWs s with
    | nil => simp [parseMembersRest, hw] at h
    | cons c r =>
      by_cases hc : c = '\x7d'
      · exact ⟨c, r, rfl, Or.inl hc⟩
      · by_cases hcm : c = ','
        · exact ⟨c, r, rfl, Or.inr hcm⟩
        · simp [parseMembersRest, hw, hc, hcm] at h

/-- After an element, the parser must see a closing bracket or a comma. -/
theorem parseElemsRest_shape {fuel : Nat} {s : List Char}
    {es : List JsonValue} {rem : List Char}
    (h : parseElemsRest fuel s = some (es, rem)) :
    ∃ c r, skipWs s = c :: r ∧ (c = ']' ∨ c = ',') := by
  cases fuel with
  | zero => simp [parseElemsRest] at h
  | succ f =>
    cases hw : skipWs s with
    | nil => simp [parseElemsRest, hw] at h
    | cons c r =>
      by_cases hc : c = ']'
      · exact ⟨c, r, rfl, Or.inl hc⟩
      · by_cases hcm : c = ','
        · exact ⟨c, r, rfl, Or.inr hcm⟩
        · simp [parseElemsRest, hw, hc, hcm] at h

/-- Parser extension: appending text to a successfully parsed input only
extends the remainder.  For values the side condition rules out the one
maximal-munch ambiguity (a number at the very end of the input); objects,
arrays, strings and literals are delimiter-terminated. -/
theorem parse_extension (fuel : Nat) :
    (∀ s t v rem, parseValue fuel s = some (v, rem) →
      ((rem ≠ [] ∧ HeadSafe rem) ∨ NumStart (skipWs s) = false) →
      parseValue fuel (s ++ t) = some (v, rem ++ t)) ∧
    (∀ s t fs rem, parseMembersFirst fuel s = some (fs, rem) →
      parseMembersFirst fuel (s ++ t) = some (fs, rem ++ t)) ∧
    (∀ s t fs rem, parseMember fuel s = some (fs, rem) →
      parseMember fuel (s ++ t) = some (fs, rem ++ t)) ∧
    (∀ s t fs rem, parseMembersRest fuel s = some (fs, rem) →
      parseMembersRest fuel (s ++ t) = some (fs, rem ++ t)) ∧
    (∀ s t es rem, parseElemsFirst fuel s = some (es, rem) →
      parseElemsFirst fuel (s ++ t) = some (es, rem ++ t)) ∧
    (∀ s t es rem, parseElemsRest fuel s = some (es, rem) →
      parseElemsRest fuel (s ++ t) = some (es, rem ++ t)) := by
  induction fuel with
  | zero =>
    refine ⟨fun s t v rem h _ => ?_, fun s t fs rem h => ?_, fun s t fs rem h => ?_,
      fun s t fs rem h => ?_, fun s t es rem h => ?_, fun s t es rem h => ?_⟩
    · simp [parseValue] at h
    · simp [parseMembersFirst] at h
    · simp [parseMember] at h
    · simp [parseMembersRest] at h
    · simp [parseElemsFirst] at h
    · simp [parseElemsRest] at h
  | succ f ih =>
    obtain ⟨ihV, ihMF, ihM, ihMR, ihEF, ihER⟩ := ih
    refine ⟨?_, ?_, ?_, ?_, ?_, ?_⟩
    · -- parseValue
      intro s t v rem h hok
      cases hw : skipWs s with
      | nil => simp [parseValue, hw] at h
      | cons c r =>
        rw [hw] at hok
        simp only [parseValue, hw] at h
        simp only [parseValue, skipWs_append_ne hw]
        by_cases hb : c = '\x7b'
        · simp only [if_pos hb] at h ⊢
          rw [Option.map_eq_some'] at h
          obtain ⟨⟨fs, r2⟩, hmf, hpair⟩ := h
          simp only [Prod.mk.injEq] at hpair
          obtain ⟨rfl, rfl⟩ := hpair
          simp only [ihMF r t fs r2 hmf, Option.map_some']
        · by_cases hk : c = '['
          · simp only [if_pos hk, if_neg hb] at h ⊢
            rw [Option.map_eq_some'] at h
            obtain ⟨⟨es, r2⟩, hef, hpair⟩ := h
            simp only [Prod.mk.injEq] at hpair
            obtain ⟨rfl, rfl⟩ := hpair
            simp only [ihEF r t es r2 hef, Option.map_some']
          · by_cases hq : c = '"'
            · simp only [if_pos hq, if_neg hb, if_neg hk] at h ⊢
              rw [Option.map_eq_some'] at h
              obtain ⟨⟨cs, r2⟩, hsb, hpair⟩ := h
              simp only [Prod.mk.injEq] at hpair
              obtain ⟨rfl, rfl⟩ := hpair
              simp only [parseStringBody_append hsb, Option.map_some']
            · simp only [if_neg hb, if_neg hk, if_neg hq] at h ⊢
              have hext := parseAtom_append (t := t) h hok
              rw [List.cons_append] at hext
              exact hext
    · -- parseMembersFirst
      intro s t fs rem h
      cases hw : skipWs s with
      | nil => simp [parseMembersFirst, hw] at h
      | cons c r =>
        simp only [parseMembersFirst, hw] at h
        simp only [parseMembersFirst, skipWs_append_ne hw]
        by_cases hc : c = '\x7d'
        · simp only [if_pos hc] at h ⊢
          simp only [Option.some.injEq, Prod.mk.injEq] at h
          obtain ⟨rfl, rfl⟩ := h
          rfl
        · by_cases hq : c = '"'
          · simp only [if_pos hq, if_neg hc] at h ⊢
            exact ihM r t fs rem h
          · simp [hc, hq] at h
    · -- parseMember
      intro s t fs rem h
      cases hsb : parseStringBody s with
      | none => simp [parseMember, hsb] at h
      | some kp =>
        obtain ⟨key, r1⟩ := kp
        simp only [parseMember, hsb] at h
        simp only [parseMember, parseStringBody_append hsb]
        cases hw : skipWs r1 with
        | nil => simp [hw] at h
        | cons c r2 =>
          simp only [hw] at h
          simp only [skipWs_append_ne hw]
          by_cases hc : c = ':'
          · simp only [if_pos hc] at h ⊢
            cases hv : parseValue f r2 with
            | none => simp [hv] at h
            | some vp =>
              obtain ⟨v0, r3⟩ := vp
              simp only [hv] at h
              cases hmr : parseMembersRest f r3 with
              | none => simp [hmr] at h
              | some mp =>
                obtain ⟨fs2, r4⟩ := mp
                simp only [hmr, Option.some.injEq, Prod.mk.injEq] at h
                obtain ⟨rfl, rfl⟩ := h
                obtain ⟨c2, rr, hwr, hcc⟩ := parseMembersRest_shape hmr
                have hsafe := headSafe_of_skipWs hwr (by rcases hcc with rfl | rfl <;> decide)
                simp only [ihV r2 t v0 r3 hv (Or.inl hsafe), ihMR r3 t fs2 r4 hmr]
          · simp [hc] at h
    · -- parseMembersRest
      intro s t fs rem h
      cases hw : skipWs s with
      | nil => simp [parseMembersRest, hw] at h
      | cons c r =>
        simp only [parseMembersRest, hw] at h
        simp only [parseMembersRest, skipWs_append_ne hw]
        by_cases hc : c = '\x7d'
        · simp only [if_pos hc] at h ⊢
          simp only [Option.some.injEq, Prod.mk.injEq] at h
          obtain ⟨rfl, rfl⟩ := h
          rfl
        · by_cases hcm : c = ','
          · simp only [if_pos hcm, if_neg hc] at h ⊢
            cases hw2 : skipWs r with
            | nil => simp [hw2] at h
            | cons c2 r2 =>
              simp only [hw2] at h
              simp only [skipWs_append_ne hw2]
              by_cases hq : c2 = '"'
              · simp only [if_pos hq] at h ⊢
                exact ihM r2 t fs rem h
              · simp [hq] at h
          · simp [hc, hcm] at h
    · -- parseElemsFirst
      intro s t es rem h
      cases hw : skipWs s with
      | nil => simp [parseElemsFirst, hw] at h
      | cons c r =>
        simp only [parseElemsFirst, hw] at h
        simp only [parseElemsFirst, skipWs_append_ne hw]
        by_cases hc : c = ']'
        · simp only [if_pos hc] at h ⊢
          simp only [Option.some.injEq, Prod.mk.injEq] at h
          obtain ⟨rfl, rfl⟩ := h
          rfl
        · simp only [if_neg hc] at h ⊢
          cases hv : parseValue f s with
          | none => simp [hv] at h
          | some vp =>
            obtain ⟨v0, r1⟩ := vp
            simp only [hv] at h
            cases her : parseElemsRest f r1 with
            | none => simp [her] at h
            | some ep2 =>
              obtain ⟨es2, r2⟩ := ep2
              simp only [her, Option.some.injEq, Prod.mk.injEq] at h
              obtain ⟨rfl, rfl⟩ := h
              obtain ⟨c2, rr, hwr, hcc⟩ := parseElemsRest_shape her
              have hsafe := headSafe_of_skipWs hwr (by rcases hcc with rfl | rfl <;> decide)
              simp only [ihV s t v0 r1 hv (Or.inl hsafe), ihER r1 t es2 r2 her]
    · -- parseElemsRest
      intro s t es rem h
      cases hw : skipWs s with
      | nil => simp [parseElemsRest, hw] at h
      | cons c r =>
        simp only [parseElemsRest, hw] at h
        simp only [parseElemsRest, skipWs_append_ne hw]
        by_cases hc : c = ']'
        · simp only [if_pos hc] at h ⊢
          simp only [Option.some.injEq, Prod.mk.injEq] at h
          obtain ⟨rfl, rfl⟩ := h
          rfl
        · by_cases hcm : c = ','
          · simp only [if_pos hcm, if_neg hc] at h ⊢
            cases hv : parseValue f r with
            | none => simp [hv] at h
            | some vp =>
              obtain ⟨v0, r1⟩ := vp
              simp only [hv] at h
              cases her : parseElemsRest f r1 with
              | none => simp [her] at h
              | some ep2 =>
                obtain ⟨es2, r2⟩ := ep2
                simp only [her, Option.some.injEq, Prod.mk.injEq] at h
                obtain ⟨rfl, rfl⟩ := h
                obtain ⟨c2, rr, hwr, hcc⟩ := parseElemsRest_shape her
                have hsafe := headSafe_of_skipWs hwr (by rcases hcc with rfl | rfl <;> decide)
                simp only [ihV r t v0 r1 hv (Or.inl hsafe), ihER r1 t es2 r2 her]
          · simp [hc, hcm] at h

/-- json.loads fails on a parsed object followed by any text containing a
non-blank character: the object parse is delimited, so the extra text
survives as non-whitespace trailing data. -/
theorem jsonLoadsL_obj_append_none {o rest : List Char} {v : JsonValue}
    (ho : o.head? = some '\x7b')
    (hv : jsonLoadsL o = some v)
    (hx : ∃ c ∈ rest, isJsonWs c = false) :
    jsonLoadsL (o ++ rest) = none := by
  unfold jsonLoadsL at hv ⊢
  cases hp : parseValue jsonFuel o with
  | none => rw [hp] at hv; simp at hv
  | some pr =>
    obtain ⟨v0, r1⟩ := pr
    obtain ⟨m, rfl⟩ : ∃ m, o = '\x7b' :: m := by
      cases o with
      | nil => simp at ho
      | cons a l =>
        simp only [List.head?_cons, Option.some.injEq] at ho
        exact ⟨l, by rw [ho]⟩
    have hws : skipWs ('\x7b' :: m) = '\x7b' :: m := by
      rw [skipWs, List.dropWhile_cons, if_neg (by decide)]
    have hns : NumStart (skipWs ('\x7b' :: m)) = false := by
      rw [hws]
      rfl
    have hext := (parse_extension jsonFuel).1 ('\x7b' :: m) rest v0 r1 hp (Or.inr hns)
    rw [hext]
    obtain ⟨cbad, hmem, hnw⟩ := hx
    have hrest : rest.all isJsonWs = false := by
      cases hcon : rest.all isJsonWs with
      | false => rfl
      | true =>
        have := List.all_eq_true.mp hcon cbad hmem
        rw [hnw] at this
        simp at this
    have hfalse : allWs (r1 ++ rest) = false := by
      rw [allWs, List.all_append, hrest, Bool.and_false]
    simp [hfalse]

/-- C4: the fallback candidate is exactly the span from the first opening
brace to the last closing brace, so a stripped response made of two valid
JSON objects separated by brace-free non-JSON prose yields a candidate
spanning both objects, and resolution fails even though each object alone
parses. -/
theorem c4_greedy_span_two_objects (resp o1 mid o2 : String) (v1 v2 : JsonValue)
    (hsplit : pyStripL resp.data = o1.data ++ mid.data ++ o2.data)
    (h1h : o1.data.head? = some '\x7b') (_h1l : o1.data.getLast? = some '\x7d')
    (h2h : o2.data.head? = some '\x7b') (h2l : o2.data.getLast? = some '\x7d')
    (_hm1 : '\x7b' ∉ mid.data) (_hm2 : '\x7d' ∉ mid.data)
    (hv1 : jsonLoadsL o1.data = some v1) (_hv2 : jsonLoadsL o2.data = some v2) :
    extractBraceSpan (pyStripL resp.data) = some (o1.data ++ mid.data ++ o2.data) ∧
    ∃ e, resolveResponse resp = Except.error e := by
  obtain ⟨m1, hm⟩ : ∃ m, o1.data = '\x7b' :: m := by
    cases ho : o1.data with
    | nil => rw [ho] at h1h; simp at h1h
    | cons a l =>
      rw [ho] at h1h
      simp only [List.head?_cons, Option.some.injEq] at h1h
      exact ⟨l, by rw [h1h]⟩
  have ho2ne : o2.data ≠ [] := by
    intro h0
    rw [h0] at h2h
    simp at h2h
  have hlast : ((m1 ++ mid.data) ++ o2.data).getLast? = some '\x7d' := by
    rw [List.getLast?_append_of_ne_nil (m1 ++ mid.data) ho2ne]
    exact h2l
  have hspan : extractBraceSpan (pyStripL resp.data) =
      some (o1.data ++ mid.data ++ o2.data) := by
    rw [hsplit, hm, List.cons_append, List.cons_append]
    unfold extractBraceSpan
    rw [dropUntilBrace_cons_brace]
    simp only [takeToLastClose_of_getLast hlast]
  have hnone : jsonLoadsL (o1.data ++ (mid.data ++ o2.data)) = none := by
    apply jsonLoadsL_obj_append_none h1h hv1
    refine ⟨'\x7b', ?_, by decide⟩
    apply List.mem_append_right
    obtain ⟨m2, hm2eq⟩ : ∃ m, o2.data = '\x7b' :: m := by
      cases ho : o2.data with
      | nil => rw [ho] at h2h; simp at h2h
      | cons a l =>
        rw [ho] at h2h
        simp only [List.head?_cons, Option.some.injEq] at h2h
        exact ⟨l, by rw [h2h]⟩
    rw [hm2eq]
    exact List.mem_cons_self _ _
  have hnone2 : jsonLoadsL (o1.data ++ mid.data ++ o2.data) = none := by
    rw [List.append_assoc]
    exact hnone
  have hnone1 : jsonLoadsL (pyStripL resp.data) = none := by
    rw [hsplit]
    exact hnone2
  refine ⟨hspan, "JSONDecodeError", ?_⟩
  unfold resolveResponse
  rw [hnone1, hspan]
  simp only [hnone2]

/-- Two-object response for the C4 witness. -/
def c4resp : String := "\x7b\"a\": 1\x7d and some prose \x7b\"b\": 2\x7d"

/-- First object of the C4 witness. -/
def c4obj1 : String := "\x7b\"a\": 1\x7d"

/-- Separating prose of the C4 witness. -/
def c4mid : String := " and some prose "

/-- Second object of the C4 witness. -/
def c4obj2 : String := "\x7b\"b\": 2\x7d"

/-- Witness for C4: the candidate spans both objects and resolution fails. -/
theorem c4_greedy_span_two_objects_witness :
    extractBraceSpan (pyStripL c4resp.data) =
      some (c4obj1.data ++ c4mid.data ++ c4obj2.data) ∧
    ∃ e, resolveResponse c4resp = Except.error e :=
  c4_greedy_span_two_objects c4resp c4obj1 c4mid c4obj2
    (JsonValue.obj [("a", JsonValue.num "1")]) (JsonValue.obj [("b", JsonValue.num "2")])
    (by decide) rfl rfl rfl rfl (by decide) (by decide) rfl rfl
